import Mathlib

/-!
Shallow embedding of the hybrid movie recommender
(app/recommender.py, app/utils.py, app/routes.py).

Numeric scores are modelled as rationals.  numpy argsort
(np.argsort, default kind) is modelled as a stable ascending argsort:
indices are sorted by value, ties keeping the original index order; this
matches numpy's observed behaviour on the array sizes at play and fixes a
deterministic tie rule for the embedding.  The cosine-similarity row
computed at recommender.py line 173 is kept abstract (a field of the
model) because cosine similarity involves square roots; every claim below
concerns the ranking, slicing and blending logic applied to that row.
-/

namespace Recommender

/-- Order on (score, index) pairs used to model the stable ascending
argsort: by score first, ties by original index ascending. -/
def keyLe (a b : ℚ × ℕ) : Prop :=
  a.1 < b.1 ∨ (a.1 = b.1 ∧ a.2 ≤ b.2)

instance : DecidableRel keyLe :=
  fun a b => by unfold keyLe; exact inferInstance

instance : IsTotal (ℚ × ℕ) keyLe :=
  ⟨by
    intro a b
    rcases lt_trichotomy a.1 b.1 with h | h | h
    · exact Or.inl (Or.inl h)
    · rcases le_total a.2 b.2 with h2 | h2
      · exact Or.inl (Or.inr ⟨h, h2⟩)
      · exact Or.inr (Or.inr ⟨h.symm, h2⟩)
    · exact Or.inr (Or.inl h)⟩

instance : IsTrans (ℚ × ℕ) keyLe :=
  ⟨by
    intro a b c hab hbc
    rcases hab with h1 | ⟨e1, l1⟩ <;> rcases hbc with h2 | ⟨e2, l2⟩
    · exact Or.inl (h1.trans h2)
    · exact Or.inl (lt_of_lt_of_le h1 (le_of_eq e2))
    · exact Or.inl (lt_of_le_of_lt (le_of_eq e1) h2)
    · exact Or.inr ⟨e1.trans e2, l1.trans l2⟩⟩

/-- Pair every element of a list with its position, starting at `i`
(the element comes first, the index second). -/
def pairsFrom {α : Type} : ℕ → List α → List (α × ℕ)
  | _, [] => []
  | i, x :: xs => (x, i) :: pairsFrom (i + 1) xs

/-- Stable ascending argsort of a list of scores: model of np.argsort. -/
def argsortAsc (s : List ℚ) : List ℕ :=
  (List.insertionSort keyLe (pairsFrom 0 s)).map Prod.snd

/-- Model of np.argsort(s)[::-1]: the ascending argsort, reversed. -/
def argsortDesc (s : List ℚ) : List ℕ :=
  (argsortAsc s).reverse

/-- recommender.py lines 176-179: given the flattened similarity row,
np.argsort(similarities)[::-1][1:top_k+1] zipped with its scores. -/
def contentSimilarityRank (similarities : List ℚ) (top_k : ℕ) : List (ℕ × ℚ) :=
  (((argsortDesc similarities).drop 1).take top_k).map
    (fun i => (i, similarities.getD i 0))

/-- np.ndarray.max() of a nonempty list (none on the empty list). -/
def listMax : List ℚ → Option ℚ
  | [] => none
  | x :: xs => some (xs.foldl max x)

/-- np.ndarray.min() of a nonempty list (none on the empty list). -/
def listMin : List ℚ → Option ℚ
  | [] => none
  | x :: xs => some (xs.foldl min x)

/-- recommender.py lines 245-246: min-max normalize the content scores,
but only when max() > min(); otherwise the scores are left untouched. -/
def normalizeContentScores (s : List ℚ) : List ℚ :=
  match listMax s, listMin s with
  | some M, some m => if m < M then s.map (fun x => (x - m) / (M - m)) else s
  | _, _ => s

/-- recommender.py line 249: rescale collaborative predictions from
[1,5] to [0,1]. -/
def normalizeCollabScores (s : List ℚ) : List ℚ :=
  s.map (fun x => (x - 1) / 4)

/-- recommender.py lines 241-252: the blended hybrid score array. -/
def hybridScoresOf (alpha : ℚ) (content collab : List ℚ) : List ℚ :=
  List.zipWith (fun c k => alpha * c + (1 - alpha) * k)
    (normalizeContentScores content) (normalizeCollabScores collab)

/-- recommender.py line 255: np.argsort(hybrid_scores)[::-1][:top_n]. -/
def topIndices (scores : List ℚ) (top_n : ℕ) : List ℕ :=
  (argsortDesc scores).take top_n

/-- One catalog item: the metadata columns used by the recommender. -/
structure Movie where
  movie_id : ℕ
  title : String
  genre : String
  overview : String
  rating : ℚ
deriving DecidableEq

/-- Default row, stands for an out-of-range .iloc access (never reached
on the inputs the code produces). -/
def defaultMovie : Movie := ⟨0, "", "", "", 0⟩

/-- The loaded model state of HybridMovieRecommender: catalog rows, the
(abstract) cosine-similarity row per catalog row, and the collaborative
artifacts.  index_to_movie_id is realised as row lookup in the catalog,
which is what load_data builds when ids are distinct. -/
structure Model where
  movies : List Movie
  simRow : ℕ → List ℚ
  user_id_to_idx : ℕ → Option ℕ
  user_factors : List (List ℚ)
  item_factors : List (List ℚ)
  item_id_to_idx : ℕ → Option ℕ

/-- Python substring test (needle in hay) on character lists. -/
def strContains (hay needle : List Char) : Bool :=
  hay.tails.any (fun tl => needle.isPrefixOf tl)

/-- Python str.lower(), modelled characterwise on the character list
(the catalog titles involved are ASCII). -/
def lowerChars (t : String) : List Char :=
  t.toList.map Char.toLower

/-- recommender.py lines 154-166: case-insensitive exact title match
first, else first case-insensitive substring match, in row order. -/
def findMovieIdx (movies : List Movie) (movie_title : String) : Option ℕ :=
  match movies.findIdx? (fun mv => lowerChars mv.title == lowerChars movie_title) with
  | some idx => some idx
  | none =>
    movies.findIdx?
      (fun mv => strContains (lowerChars mv.title) (lowerChars movie_title))

/-- recommender.py lines 152-179: get_content_similarity. -/
def get_content_similarity (M : Model) (movie_title : String) (top_k : ℕ) :
    List (ℕ × ℚ) :=
  match findMovieIdx M.movies movie_title with
  | none => []
  | some movie_idx => contentSimilarityRank (M.simRow movie_idx) top_k

/-- max(1.0, min(5.0, x)): recommender.py line 205. -/
def clampRating (x : ℚ) : ℚ := max 1 (min 5 x)

/-- Dot product of two factor vectors. -/
def dotProduct (u v : List ℚ) : ℚ :=
  (List.zipWith (fun a b => a * b) u v).sum

/-- recommender.py lines 181-211: get_collaborative_scores.  The Python
loop that appends to a list is modelled as a foldl over the indices. -/
def get_collaborative_scores (M : Model) (user_id : ℕ)
    (movie_indices : List ℕ) : List ℚ :=
  match M.user_id_to_idx user_id with
  | none => movie_indices.map (fun _ => 5 / 2)
  | some user_idx =>
    movie_indices.foldl
      (fun scores movie_idx =>
        match M.item_id_to_idx ((M.movies.getD movie_idx defaultMovie).movie_id) with
        | some item_idx =>
          scores ++ [clampRating (dotProduct (M.user_factors.getD user_idx [])
            (M.item_factors.getD item_idx []))]
        | none => scores ++ [5 / 2]) []

deriving instance DecidableEq for Except

/-- A cell value of the result DataFrame. -/
inductive Val where
  | nat : ℕ → Val
  | str : String → Val
  | rat : ℚ → Val
deriving DecidableEq

/-- A pandas DataFrame, reduced to what the claims need: its column
labels in order, and its rows. -/
structure RecFrame where
  columns : List String
  rows : List (List Val)
deriving DecidableEq

/-- Columns of the empty DataFrame built at recommender.py line 231. -/
def emptyResultColumns : List String :=
  ["movie_id", "title", "genre", "overview", "rating", "score"]

/-- Column labels a non-empty result carries: the dict keys of
recommender.py lines 264-273, in insertion order. -/
def fullResultColumns : List String :=
  ["movie_id", "title", "genre", "overview", "rating", "score",
   "content_score", "collab_score"]

/-- recommender.py lines 241-252 specialised to the candidate list:
content scores are the second components, collaborative predictions are
fetched for the first components, and the two are blended. -/
def hybridScoresFor (M : Model) (user_id : ℕ) (cs : List (ℕ × ℚ))
    (alpha : ℚ) : List ℚ :=
  hybridScoresOf alpha (cs.map Prod.snd)
    (get_collaborative_scores M user_id (cs.map Prod.fst))

/-- recommender.py lines 258-273: the list of result records, one per
selected position of the hybrid-score argsort, each record holding the
dict values of lines 264-273 in insertion order. -/
def resultRows (M : Model) (user_id : ℕ) (cs : List (ℕ × ℚ)) (alpha : ℚ)
    (top_n : ℕ) : List (List Val) :=
  (topIndices (hybridScoresFor M user_id cs alpha) top_n).map (fun i =>
    [Val.nat (M.movies.getD ((cs.map Prod.fst).getD i 0) defaultMovie).movie_id,
     Val.str (M.movies.getD ((cs.map Prod.fst).getD i 0) defaultMovie).title,
     Val.str (M.movies.getD ((cs.map Prod.fst).getD i 0) defaultMovie).genre,
     Val.str (M.movies.getD ((cs.map Prod.fst).getD i 0) defaultMovie).overview,
     Val.rat (M.movies.getD ((cs.map Prod.fst).getD i 0) defaultMovie).rating,
     Val.rat ((hybridScoresFor M user_id cs alpha).getD i 0),
     Val.rat ((normalizeContentScores (cs.map Prod.snd)).getD i 0),
     Val.rat ((normalizeCollabScores
       (get_collaborative_scores M user_id (cs.map Prod.fst))).getD i 0)])

/-- recommender.py lines 213-275: hybrid_recommend.  pd.DataFrame on an
empty list of records yields a frame with no columns at all, which the
last branch reproduces. -/
def hybrid_recommend (M : Model) (user_id : ℕ) (movie_title : String)
    (alpha : ℚ) (top_n : ℕ) : RecFrame :=
  let content_similarities := get_content_similarity M movie_title 100
  if content_similarities.isEmpty then
    { columns := emptyResultColumns, rows := [] }
  else
    let results := resultRows M user_id content_similarities alpha top_n
    if results.isEmpty then { columns := [], rows := [] }
    else { columns := fullResultColumns, rows := results }

/-- pandas row mean over the zero-filled pivot row
(recommender.py line 89: user_item_matrix.mean(axis=1), taken after the
pivot was built with fill_value equal to 0). -/
def user_mean (row : List ℚ) : ℚ := row.sum / row.length

/-- recommender.py line 90: row.replace(0, user_means[row.name]) — every
zero cell of the zero-filled row is replaced by that row's mean. -/
def fillUserRow (row : List ℚ) : List ℚ :=
  row.map (fun x => if x = 0 then user_mean row else x)

/-- One user's row of the pivot table (recommender.py lines 81-86):
for each item column, the user's observed rating or the fill value 0. -/
def buildUserRow (obs : ℕ → Option ℚ) (cols : List ℕ) : List ℚ :=
  cols.map (fun c => (obs c).getD 0)

/-- Mean of the user's observed ratings only — what the spec says the
gap fill should be; used to compare against what the code computes. -/
def observedMean (obs : ℕ → Option ℚ) (cols : List ℕ) : ℚ :=
  ((cols.filterMap obs).sum) / ((cols.filterMap obs).length)

/-- Concrete observation map: the user rated item 0 with 4, nothing
else. -/
def obsCex : ℕ → Option ℚ := fun c => if c = 0 then some 4 else none

/-- utils.py line 83 and line 109: the only artifacts the health checks
look at. -/
def required_models : List String :=
  ["tfidf.pkl", "tfidf_matrix.pkl", "svd.pkl", "movies_df.pkl"]

/-- recommender.py lines 137-148: every file load_models reads, in load
order. -/
def bundle_files : List String :=
  ["tfidf.pkl", "tfidf_matrix.pkl", "svd.pkl", "user_factors.pkl",
   "item_factors.pkl", "user_ids.pkl", "item_ids.pkl",
   "user_id_to_idx.pkl", "item_id_to_idx.pkl", "movie_id_to_index.pkl",
   "index_to_movie_id.pkl", "movies_df.pkl"]

/-- utils.py lines 73-89: get_model_info's is_ready field — true iff no
required model is missing from the store (a store is the set of file
names present in the models directory). -/
def get_model_info_is_ready (store : List String) : Bool :=
  required_models.all (fun f => store.contains f)

/-- utils.py lines 106-119: validate_models loads each required model;
in this embedding a file is loadable iff it is present, so the check
succeeds iff every required model is in the store. -/
def validate_models (store : List String) : Bool :=
  required_models.all (fun f => store.contains f)

/-- Sequential loading of a file list: stops at the first file missing
from the store, reporting its name (the FileNotFoundError joblib.load
raises). -/
def loadFiles (store : List String) : List String → Except String Unit
  | [] => Except.ok ()
  | f :: fs => if store.contains f then loadFiles store fs else Except.error f

/-- recommender.py lines 133-150: load_models reads the twelve bundle
files in order and fails on the first one that is absent. -/
def load_models (store : List String) : Except String Unit :=
  loadFiles store bundle_files

/-- Python dict insert: overwrite in place if the key exists, else
append. -/
def dictInsert (d : List (ℕ × ℕ)) (k v : ℕ) : List (ℕ × ℕ) :=
  if d.any (fun p => p.1 == k) then
    d.map (fun p => if p.1 == k then (k, v) else p)
  else d ++ [(k, v)]

/-- Python dict lookup (keys are unique by construction). -/
def dictGet (d : List (ℕ × ℕ)) (k : ℕ) : Option ℕ :=
  (d.find? (fun p => p.1 == k)).map Prod.snd

/-- recommender.py line 41: the dict comprehension over
enumerate(movies_df.movie_id) — on a duplicate id, the later row
index silently overwrites the earlier one. -/
def movie_id_to_index_dict (ids : List ℕ) : List (ℕ × ℕ) :=
  (pairsFrom 0 ids).foldl (fun d p => dictInsert d p.1 p.2) []

/-- recommender.py line 42: invert the id-to-index dict by iterating
over its items. -/
def index_to_movie_id_dict (m : List (ℕ × ℕ)) : List (ℕ × ℕ) :=
  m.foldl (fun d p => dictInsert d p.2 p.1) []

/-- recommender.py lines 30-44 restricted to the id maps: load_data.
On an empty catalog pandas raises a KeyError when column movie_id is
selected (the DataFrame of an empty list has no columns); otherwise the
two maps are built with no validation of any kind. -/
def load_data (ids : List ℕ) : Except String (List (ℕ × ℕ) × List (ℕ × ℕ)) :=
  if ids.isEmpty then Except.error "KeyError: movie_id"
  else
    let m := movie_id_to_index_dict ids
    Except.ok (m, index_to_movie_id_dict m)

/-- The ordering the spec claims for result lists: score descending,
ties broken by ascending row index. -/
def specTieOrder (p q : ℕ × ℚ) : Prop :=
  q.2 < p.2 ∨ (p.2 = q.2 ∧ p.1 < q.1)

instance : DecidableRel specTieOrder :=
  fun p q => by unfold specTieOrder; exact inferInstance

/-- The ordering the code actually produces: score descending, ties
broken by DESCENDING row index (the reversal of a stable ascending
argsort reverses tie order too). -/
def codeTieOrder (p q : ℕ × ℚ) : Prop :=
  q.2 < p.2 ∨ (p.2 = q.2 ∧ q.1 < p.1)

/-- Three-movie catalog whose row 2 has a feature vector identical to
row 0 and whose row 1 is orthogonal to it: the cosine-similarity row of
query row 0 is [1, 0, 1] (rows 0 and 2 tie at similarity 1). -/
def cexModelDup : Model where
  movies :=
    [⟨10, "aa", "g", "o", 3⟩, ⟨20, "bb", "g", "o", 3⟩, ⟨30, "cc", "g", "o", 3⟩]
  simRow := fun r => if r = 0 then [1, 0, 1] else []
  user_id_to_idx := fun _ => none
  user_factors := []
  item_factors := []
  item_id_to_idx := fun _ => none

/-- Two-movie catalog for exercising hybrid_recommend at a concrete
out-of-range alpha: the query title matches row 0 (similarity row
[1, 0]) so row 1 is the single candidate, and no user is known to the
collaborative model. -/
def cexModelAlpha : Model where
  movies := [⟨10, "aa", "g", "o", 3⟩, ⟨20, "bb", "g", "o", 3⟩]
  simRow := fun r => if r = 0 then [1, 0] else []
  user_id_to_idx := fun _ => none
  user_factors := []
  item_factors := []
  item_id_to_idx := fun _ => none

/-- One-movie, one-user collaborative model: user id 1 is row 0 of the
user factors, item id 10 is row 0 of the item factors. -/
def cexModelCollab : Model where
  movies := [⟨10, "aa", "g", "o", 3⟩]
  simRow := fun _ => []
  user_id_to_idx := fun u => if u = 1 then some 0 else none
  user_factors := [[2]]
  item_factors := [[3]]
  item_id_to_idx := fun i => if i = 10 then some 0 else none

theorem contains_iff_mem_str {l : List String} {a : String} :
    l.contains a = true ↔ a ∈ l := by
  simp [List.contains, List.elem_iff]

theorem pairsFrom_length {α : Type} : ∀ (i : ℕ) (l : List α),
    (pairsFrom i l).length = l.length
  | _, [] => rfl
  | i, _ :: xs => by simp [pairsFrom, pairsFrom_length (i + 1) xs]

theorem pairsFrom_map_fst {α : Type} : ∀ (i : ℕ) (l : List α),
    (pairsFrom i l).map Prod.fst = l
  | _, [] => rfl
  | i, x :: xs => by simp [pairsFrom, pairsFrom_map_fst (i + 1) xs]

theorem pairsFrom_map_snd {α : Type} : ∀ (i : ℕ) (l : List α),
    (pairsFrom i l).map Prod.snd = List.range' i l.length
  | _, [] => rfl
  | i, x :: xs => by
    simp [pairsFrom, List.range'_succ, pairsFrom_map_snd (i + 1) xs]

theorem mem_pairsFrom {α : Type} (d : α) :
    ∀ {l : List α} {i : ℕ} {p : α × ℕ}, p ∈ pairsFrom i l →
      ∃ j, j < l.length ∧ p.1 = l.getD j d ∧ p.2 = i + j := by
  intro l
  induction l with
  | nil => intro i p hp; simp [pairsFrom] at hp
  | cons x xs ih =>
    intro i p hp
    rw [pairsFrom, List.mem_cons] at hp
    rcases hp with hp | hp
    · exact ⟨0, by simp, by simp [hp], by simp [hp]⟩
    · obtain ⟨j, hj, h1, h2⟩ := ih hp
      exact ⟨j + 1, by simpa using hj, by simpa using h1, by omega⟩

theorem getD_mem_pairsFrom {α : Type} (d : α) :
    ∀ (l : List α) (i r : ℕ), r < l.length →
      (l.getD r d, i + r) ∈ pairsFrom i l := by
  intro l
  induction l with
  | nil => intro i r hr; simp at hr
  | cons x xs ih =>
    intro i r hr
    cases r with
    | zero => simp [pairsFrom]
    | succ r =>
      have h := ih (i + 1) r (by simpa using hr)
      have e : i + (r + 1) = i + 1 + r := by omega
      simp only [pairsFrom, List.getD_cons_succ, e]
      exact List.mem_cons_of_mem _ h

theorem pairsFrom_map (f : ℚ → ℚ) : ∀ (i : ℕ) (l : List ℚ),
    pairsFrom i (l.map f) = (pairsFrom i l).map (fun p => (f p.1, p.2))
  | _, [] => rfl
  | i, x :: xs => by simp [pairsFrom, pairsFrom_map f (i + 1) xs]

theorem length_argsortAsc (s : List ℚ) : (argsortAsc s).length = s.length := by
  unfold argsortAsc
  rw [List.length_map, (List.perm_insertionSort keyLe _).length_eq,
    pairsFrom_length]

theorem argsortAsc_perm (s : List ℚ) :
    List.Perm (argsortAsc s) (List.range' 0 s.length) := by
  unfold argsortAsc
  have h1 : List.Perm ((List.insertionSort keyLe (pairsFrom 0 s)).map Prod.snd)
      ((pairsFrom 0 s).map Prod.snd) := (List.perm_insertionSort keyLe _).map _
  rwa [pairsFrom_map_snd] at h1

theorem nodup_argsortAsc (s : List ℚ) : (argsortAsc s).Nodup :=
  (argsortAsc_perm s).nodup_iff.2 (List.nodup_range' 0 s.length)

theorem foldl_max_all_eq {c : ℚ} :
    ∀ {xs : List ℚ} {x : ℚ}, x = c → (∀ y ∈ xs, y = c) → xs.foldl max x = c := by
  intro xs
  induction xs with
  | nil => intro x hx _; simpa using hx
  | cons y ys ih =>
    intro x hx h
    have hy : y = c := h y (by simp)
    simp only [List.foldl_cons]
    exact ih (by rw [hx, hy, max_self]) (fun z hz => h z (by simp [hz]))

theorem foldl_min_all_eq {c : ℚ} :
    ∀ {xs : List ℚ} {x : ℚ}, x = c → (∀ y ∈ xs, y = c) → xs.foldl min x = c := by
  intro xs
  induction xs with
  | nil => intro x hx _; simpa using hx
  | cons y ys ih =>
    intro x hx h
    have hy : y = c := h y (by simp)
    simp only [List.foldl_cons]
    exact ih (by rw [hx, hy, min_self]) (fun z hz => h z (by simp [hz]))

/-- C2, corrected claim: when every candidate has the same content score
the guard max() > min() at recommender.py line 245 is false, so the
scores are passed through UNCHANGED (the raw scores); they are not all
set to 0. -/
theorem normalizeContentScores_all_eq (s : List ℚ) (c : ℚ)
    (h : ∀ x ∈ s, x = c) : normalizeContentScores s = s := by
  cases s with
  | nil => rfl
  | cons x xs =>
    have hmax : listMax (x :: xs) = some c :=
      congrArg some
        (foldl_max_all_eq (h x (by simp)) (fun y hy => h y (by simp [hy])))
    have hmin : listMin (x :: xs) = some c :=
      congrArg some
        (foldl_min_all_eq (h x (by simp)) (fun y hy => h y (by simp [hy])))
    unfold normalizeContentScores
    rw [hmax, hmin]
    simp

/-- Witness for the C2 theorem at the concrete all-equal score list
[3, 3]. -/
theorem normalizeContentScores_all_eq_witness :
    normalizeContentScores [3, 3] = [3, 3] :=
  normalizeContentScores_all_eq [3, 3] 3 (by decide)

/-- C2 counterexample: on the all-equal candidate score list [1, 1]
(two candidates tied with the query row at cosine similarity 1) the
code returns the raw scores, not the all-zero list the spec
promises. -/
theorem normalizeContentScores_counterexample :
    normalizeContentScores [1, 1] = [1, 1] ∧
      normalizeContentScores [1, 1] ≠ [0, 0] := by
  constructor
  · decide
  · decide

/-- C5, corrected claim: for a user row built from the observation map
over the item columns (0 marking gaps), every cell of the filled row is
either the observed rating, or the pivot-row mean user_mean, which
averages over ALL item columns — the zero-filled gaps included. -/
theorem fillUserRow_spec (obs : ℕ → Option ℚ) (cols : List ℕ)
    (h0 : ∀ c ∈ cols, obs c ≠ some 0) :
    fillUserRow (buildUserRow obs cols) =
      cols.map (fun c =>
        match obs c with
        | some v => v
        | none => user_mean (buildUserRow obs cols)) := by
  unfold fillUserRow buildUserRow
  rw [List.map_map]
  apply List.map_congr_left
  intro c hc
  cases hobs : obs c with
  | none => simp [hobs]
  | some v =>
    have hv : v ≠ 0 := fun h => h0 c hc (h ▸ hobs)
    simp [hobs, hv]

/-- Witness for the C5 theorem at the concrete observation map obsCex
over columns [0, 1, 2]. -/
theorem fillUserRow_spec_witness :
    fillUserRow (buildUserRow obsCex [0, 1, 2]) =
      [0, 1, 2].map (fun c =>
        match obsCex c with
        | some v => v
        | none => user_mean (buildUserRow obsCex [0, 1, 2])) :=
  fillUserRow_spec obsCex [0, 1, 2] (by simp [obsCex])

/-- C5 counterexample: the user rated only item 0 (rating 4).  The cell
for unrated item 1 is filled with 4/3 (the mean over the zero-filled
row), not with 4, the mean of the observed ratings only, as the claim
states. -/
theorem fillUserRow_counterexample :
    obsCex 1 = none ∧
      (fillUserRow (buildUserRow obsCex [0, 1, 2])).getD 1 0 = 4 / 3 ∧
      observedMean obsCex [0, 1, 2] = 4 ∧ (4 : ℚ) / 3 ≠ 4 := by
  refine ⟨rfl, ?_, ?_, by norm_num⟩
  · simp [fillUserRow, buildUserRow, user_mean, obsCex]
  · simp [observedMean, obsCex, List.filterMap_cons]

theorem loadFiles_error_spec (store : List String) :
    ∀ (fs : List String) (f : String), loadFiles store fs = Except.error f →
      f ∈ fs ∧ f ∉ store := by
  intro fs
  induction fs with
  | nil => intro f h; simp [loadFiles] at h
  | cons g gs ih =>
    intro f h
    unfold loadFiles at h
    by_cases hg : store.contains g
    · rw [if_pos hg] at h
      obtain ⟨h1, h2⟩ := ih f h
      exact ⟨by simp [h1], h2⟩
    · rw [if_neg hg] at h
      cases h
      refine ⟨by simp, fun hmem => hg (contains_iff_mem_str.2 hmem)⟩

theorem loadFiles_ok_iff (store : List String) :
    ∀ (fs : List String), loadFiles store fs = Except.ok () ↔
      ∀ f ∈ fs, f ∈ store := by
  intro fs
  induction fs with
  | nil => simp [loadFiles]
  | cons g gs ih =>
    unfold loadFiles
    by_cases hg : store.contains g
    · rw [if_pos hg]
      simp only [ih, List.mem_cons]
      constructor
      · intro h f hf
        rcases hf with hf | hf
        · rw [hf]; exact contains_iff_mem_str.1 hg
        · exact h f hf
      · intro h f hf; exact h f (Or.inr hf)
    · rw [if_neg hg]
      constructor
      · intro h; cases h
      · intro h
        exact absurd (contains_iff_mem_str.2 (h g (by simp))) hg

/-- C6, corrected claim: the health checks look only at the four
content-side artifacts of utils.py line 83/109 — is_ready holds iff
exactly those four are present (validate_models is the same predicate in
this embedding), while load_models reads all twelve bundle files and
fails on the first absent one, naming it.  Readiness therefore does not
imply the whole Trained Artifact Bundle is loadable. -/
theorem model_store_validation_spec (store : List String) :
    (get_model_info_is_ready store = true ↔ ∀ f ∈ required_models, f ∈ store) ∧
      validate_models store = get_model_info_is_ready store ∧
      (∀ f, load_models store = Except.error f → f ∈ bundle_files ∧ f ∉ store) ∧
      (load_models store = Except.ok () ↔ ∀ f ∈ bundle_files, f ∈ store) := by
  refine ⟨?_, rfl, ?_, ?_⟩
  · unfold get_model_info_is_ready
    rw [List.all_eq_true]
    constructor
    · intro h f hf; exact contains_iff_mem_str.1 (h f hf)
    · intro h f hf; exact contains_iff_mem_str.2 (h f hf)
  · intro f h; exact loadFiles_error_spec store bundle_files f h
  · exact loadFiles_ok_iff store bundle_files

/-- Witness for the C6 theorem at the concrete store ["tfidf.pkl"]:
load_models fails naming the first missing bundle file. -/
theorem model_store_validation_spec_witness :
    "tfidf_matrix.pkl" ∈ bundle_files ∧ "tfidf_matrix.pkl" ∉ ["tfidf.pkl"] :=
  (model_store_validation_spec ["tfidf.pkl"]).2.2.1 "tfidf_matrix.pkl" (by decide)

/-- C6 counterexample: a models directory holding exactly the four
checked files reports ready and passes validate_models, yet
load_models fails because user_factors.pkl — an artifact of the
Trained Artifact Bundle — is absent. -/
theorem model_store_validation_counterexample :
    get_model_info_is_ready required_models = true ∧
      validate_models required_models = true ∧
      load_models required_models = Except.error "user_factors.pkl" ∧
      "user_factors.pkl" ∈ bundle_files ∧
      "user_factors.pkl" ∉ required_models := by
  refine ⟨by decide, by decide, by decide, by decide, by decide⟩

/-- C7 counterexample: load_data accepts the catalog [5, 5] with a
duplicated external id — no InvalidCatalog error — and the resulting
maps are not a bijection: row 0 has no image in the index-to-id map. -/
theorem load_data_counterexample :
    load_data [5, 5] = Except.ok ([(5, 1)], [(1, 5)]) ∧
      dictGet (index_to_movie_id_dict (movie_id_to_index_dict [5, 5])) 0 =
        none := by
  refine ⟨by decide, by decide⟩

theorem sortedPairs_sorted (s : List ℚ) :
    List.Pairwise keyLe (List.insertionSort keyLe (pairsFrom 0 s)) :=
  List.sorted_insertionSort keyLe (pairsFrom 0 s)

theorem sortedPairs_reverse_pairwise (s : List ℚ) :
    ((List.insertionSort keyLe (pairsFrom 0 s)).reverse).Pairwise
      (fun a b => keyLe b a) := by
  rw [List.pairwise_reverse]
  exact sortedPairs_sorted s

theorem mem_sortedPairs_form (s : List ℚ) {p : ℚ × ℕ}
    (hp : p ∈ List.insertionSort keyLe (pairsFrom 0 s)) :
    p.2 < s.length ∧ p.1 = s.getD p.2 0 := by
  have hp2 : p ∈ pairsFrom 0 s :=
    ((List.perm_insertionSort keyLe _).mem_iff).1 hp
  obtain ⟨j, hj, h1, h2⟩ := mem_pairsFrom (0 : ℚ) hp2
  rw [Nat.zero_add] at h2
  exact ⟨h2 ▸ hj, h2 ▸ h1⟩

theorem argsortDesc_eq_reverse_map (s : List ℚ) :
    argsortDesc s =
      ((List.insertionSort keyLe (pairsFrom 0 s)).reverse).map Prod.snd := by
  unfold argsortDesc argsortAsc
  rw [List.map_reverse]

theorem nodup_reverse_map_snd (s : List ℚ) :
    (((List.insertionSort keyLe (pairsFrom 0 s)).reverse).map Prod.snd).Nodup := by
  rw [← argsortDesc_eq_reverse_map]
  unfold argsortDesc
  exact List.nodup_reverse.2 (nodup_argsortAsc s)

/-- Core of C1, corrected claim: the slice [1:top_k+1] drops exactly the
head of the descending ordering, so the query row is guaranteed absent
only when its similarity is STRICTLY greater than every other row's. -/
theorem contentSimilarityRank_excludes_strict_max (s : List ℚ) (r top_k : ℕ)
    (hr : r < s.length)
    (hmax : ∀ j < s.length, j ≠ r → s.getD j 0 < s.getD r 0) :
    ∀ p ∈ contentSimilarityRank s top_k, p.1 ≠ r := by
  intro p hp
  have hlen : (List.insertionSort keyLe (pairsFrom 0 s)).length = s.length := by
    rw [(List.perm_insertionSort keyLe _).length_eq, pairsFrom_length]
  obtain ⟨a, tail, hR⟩ : ∃ a tail,
      (List.insertionSort keyLe (pairsFrom 0 s)).reverse = a :: tail := by
    cases hc : (List.insertionSort keyLe (pairsFrom 0 s)).reverse with
    | nil =>
      have : s.length = 0 := by
        have := congrArg List.length hc
        simpa [hlen] using this
      omega
    | cons a t => exact ⟨a, t, rfl⟩
  have hpair := sortedPairs_reverse_pairwise s
  rw [hR] at hpair
  have hmaxmem : (s.getD r 0, r) ∈ a :: tail := by
    rw [← hR, List.mem_reverse]
    apply ((List.perm_insertionSort keyLe _).mem_iff).2
    have h := getD_mem_pairsFrom (0 : ℚ) s 0 r hr
    simpa using h
  have ha_mem : a ∈ List.insertionSort keyLe (pairsFrom 0 s) := by
    rw [← List.mem_reverse, hR]; simp
  have ha_form := mem_sortedPairs_form s ha_mem
  have ha2 : a.2 = r := by
    by_contra hne
    have htail : (s.getD r 0, r) ∈ tail := by
      rcases List.mem_cons.1 hmaxmem with h | h
      · exact absurd (congrArg Prod.snd h.symm) hne
      · exact h
    have hkey : keyLe (s.getD r 0, r) a :=
      (List.pairwise_cons.1 hpair).1 _ htail
    have hlt := hmax a.2 ha_form.1 hne
    rcases hkey with h | ⟨h, _⟩
    · have h2 : s.getD r 0 < a.1 := h
      rw [ha_form.2] at h2
      exact absurd (h2.trans hlt) (lt_irrefl _)
    · have h2 : s.getD r 0 = a.1 := h
      rw [ha_form.2] at h2
      rw [h2] at hlt
      exact absurd hlt (lt_irrefl _)
  have hnodup := nodup_reverse_map_snd s
  rw [hR, List.map_cons] at hnodup
  have hnr : r ∉ tail.map Prod.snd := by
    have := (List.nodup_cons.1 hnodup).1
    rwa [ha2] at this
  obtain ⟨i, hi, hpi⟩ := List.mem_map.1 hp
  have hi2 : i ∈ (argsortDesc s).drop 1 := List.mem_of_mem_take hi
  rw [argsortDesc_eq_reverse_map, hR, List.map_cons, List.drop_one,
    List.tail_cons] at hi2
  have hir : i ≠ r := fun h => hnr (h ▸ hi2)
  rw [← hpi]
  exact hir

/-- C1, corrected claim at the level of get_content_similarity: when the
matched query row's similarity is a strict maximum of its similarity row
(in particular when no other row has an identical feature vector), the
query row never appears in the result, for any requested k. -/
theorem get_content_similarity_excludes_strict_max (M : Model) (t : String)
    (r top_k : ℕ) (hm : findMovieIdx M.movies t = some r)
    (hr : r < (M.simRow r).length)
    (hmax : ∀ j < (M.simRow r).length, j ≠ r →
      (M.simRow r).getD j 0 < (M.simRow r).getD r 0) :
    ∀ p ∈ get_content_similarity M t top_k, p.1 ≠ r := by
  intro p hp
  unfold get_content_similarity at hp
  rw [hm] at hp
  exact contentSimilarityRank_excludes_strict_max (M.simRow r) r top_k hr hmax p hp

/-- Witness for the C1 theorem: on cexModelAlpha the query title matches
row 0, whose similarity 1 strictly dominates the other row, and the
single returned pair (1, 0) indeed has first component different from
the query row 0. -/
theorem get_content_similarity_excludes_strict_max_witness : (1 : ℕ) ≠ 0 :=
  get_content_similarity_excludes_strict_max cexModelAlpha "aa" 0 7
    (by decide) (by decide) (by decide) ((1 : ℕ), (0 : ℚ)) (by decide)

/-- C1 counterexample: in cexModelDup the query title matches row 0, but
row 2 ties with it at similarity 1; the positional slice drops row 2 (the
tied row with the larger index, under the stable argsort model) and the
result CONTAINS the query row 0 itself. -/
theorem get_content_similarity_self_counterexample :
    findMovieIdx cexModelDup.movies "AA" = some 0 ∧
      get_content_similarity cexModelDup "AA" 2 = [(0, 1), (1, 0)] := by
  refine ⟨by decide, by decide⟩

/-- Core of C3, corrected claim: the descending argsort paired with its
scores is sorted by score descending with ties broken by DESCENDING
index. -/
theorem argsortDesc_pairwise (s : List ℚ) :
    ((argsortDesc s).map (fun i => (i, s.getD i 0))).Pairwise codeTieOrder := by
  rw [argsortDesc_eq_reverse_map, List.map_map]
  rw [List.pairwise_map]
  have h1 := sortedPairs_reverse_pairwise s
  have h2 : ((List.insertionSort keyLe (pairsFrom 0 s)).reverse).Pairwise
      (fun a b => a.2 ≠ b.2) :=
    List.pairwise_map.1 (nodup_reverse_map_snd s)
  refine (h1.and h2).imp_of_mem ?_
  intro a b ha hb hab
  obtain ⟨hk, hne⟩ := hab
  have hfa := mem_sortedPairs_form s (List.mem_reverse.1 ha)
  have hfb := mem_sortedPairs_form s (List.mem_reverse.1 hb)
  rcases hk with h | ⟨heq, hle⟩
  · left
    rw [hfa.2, hfb.2] at h
    exact h
  · right
    constructor
    · rw [hfa.2, hfb.2] at heq
      exact heq.symm
    · exact lt_of_le_of_ne hle (fun hh => hne hh.symm)

/-- C3, corrected claim: both the content-similarity result and the
hybrid top-N selection are sorted by score descending, but ties are
broken by DESCENDING index (the code reverses a stable ascending
argsort, which reverses tie order as well). -/
theorem results_sorted_desc (s hs : List ℚ) (top_k top_n : ℕ) :
    (contentSimilarityRank s top_k).Pairwise codeTieOrder ∧
      ((topIndices hs top_n).map (fun i => (i, hs.getD i 0))).Pairwise
        codeTieOrder := by
  constructor
  · unfold contentSimilarityRank
    have hsub : List.Sublist (((argsortDesc s).drop 1).take top_k)
        (argsortDesc s) :=
      (List.take_sublist _ _).trans (List.drop_sublist _ _)
    exact List.Pairwise.sublist (hsub.map _) (argsortDesc_pairwise s)
  · unfold topIndices
    have hsub : List.Sublist ((argsortDesc hs).take top_n) (argsortDesc hs) :=
      List.take_sublist _ _
    exact List.Pairwise.sublist (hsub.map _) (argsortDesc_pairwise hs)

/-- C3 counterexample: on the similarity row [1, 1, 1, 0] (query row 0,
rows 1 and 2 tied with it at similarity 1), the result places row 1
before row 0 even though both carry score 1 — it is NOT sorted with
ties broken by ascending row index as the spec claims. -/
theorem results_tie_order_counterexample :
    contentSimilarityRank [1, 1, 1, 0] 3 = [(1, 1), (0, 1), (3, 0)] ∧
      ¬ (contentSimilarityRank [1, 1, 1, 0] 3).Pairwise specTieOrder := by
  refine ⟨by decide, by decide⟩

theorem dictInsert_fresh (d : List (ℕ × ℕ)) (k v : ℕ)
    (h : ∀ p ∈ d, p.1 ≠ k) : dictInsert d k v = d ++ [(k, v)] := by
  unfold dictInsert
  rw [if_neg]
  intro hc
  obtain ⟨x, hx, hbeq⟩ := List.any_eq_true.1 hc
  exact h x hx (by simpa using hbeq)

theorem foldl_dictInsert_fresh :
    ∀ (ps d : List (ℕ × ℕ)), (ps.map Prod.fst).Nodup →
      (∀ k ∈ ps.map Prod.fst, ∀ p ∈ d, p.1 ≠ k) →
      ps.foldl (fun d p => dictInsert d p.1 p.2) d = d ++ ps := by
  intro ps
  induction ps with
  | nil => intro d _ _; simp
  | cons q qs ih =>
    intro d hnd hfresh
    simp only [List.foldl_cons]
    rw [dictInsert_fresh d q.1 q.2 (fun p hp => hfresh q.1 (by simp) p hp)]
    have hnd2 : (qs.map Prod.fst).Nodup := by
      rw [List.map_cons] at hnd
      exact (List.nodup_cons.1 hnd).2
    have hq1 : q.1 ∉ qs.map Prod.fst := by
      rw [List.map_cons] at hnd
      exact (List.nodup_cons.1 hnd).1
    have hfresh2 : ∀ k ∈ qs.map Prod.fst, ∀ p ∈ d ++ [q], p.1 ≠ k := by
      intro k hk p hp
      rcases List.mem_append.1 hp with hp | hp
      · exact hfresh k (by simp [hk]) p hp
      · have : p = q := by simpa using hp
        rw [this]
        intro he
        exact hq1 (he ▸ hk)
    rw [ih (d ++ [q]) hnd2 hfresh2]
    simp

theorem movie_id_to_index_dict_eq (ids : List ℕ) (h : ids.Nodup) :
    movie_id_to_index_dict ids = pairsFrom 0 ids := by
  unfold movie_id_to_index_dict
  rw [foldl_dictInsert_fresh (pairsFrom 0 ids) []
    (by rw [pairsFrom_map_fst]; exact h)
    (by intro k _ p hp; simp at hp)]
  simp

theorem index_to_movie_id_dict_eq (ids : List ℕ) :
    index_to_movie_id_dict (pairsFrom 0 ids) =
      (pairsFrom 0 ids).map (fun p => (p.2, p.1)) := by
  unfold index_to_movie_id_dict
  have h1 : (pairsFrom 0 ids).foldl (fun d p => dictInsert d p.2 p.1) [] =
      ((pairsFrom 0 ids).map (fun p => (p.2, p.1))).foldl
        (fun d q => dictInsert d q.1 q.2) [] := by
    rw [List.foldl_map]
  rw [h1, foldl_dictInsert_fresh]
  · simp
  · rw [List.map_map]
    have h2 : (Prod.fst ∘ fun p : ℕ × ℕ => (p.2, p.1)) = Prod.snd := by
      funext p; rfl
    rw [h2, pairsFrom_map_snd]
    exact List.nodup_range' 0 ids.length
  · intro k _ p hp; simp at hp

theorem dictGet_pairsFrom :
    ∀ (ids : List ℕ) (i r : ℕ), ids.Nodup → r < ids.length →
      dictGet (pairsFrom i ids) (ids.getD r 0) = some (i + r) := by
  intro ids
  induction ids with
  | nil => intro i r _ hr; simp at hr
  | cons x xs ih =>
    intro i r hnd hr
    cases r with
    | zero =>
      unfold pairsFrom dictGet
      rw [List.find?_cons_of_pos]
      · rfl
      · simp
    | succ r =>
      have hx : x ∉ xs := (List.nodup_cons.1 hnd).1
      have hrlen : r < xs.length := by simpa using hr
      have hmem : xs.getD r 0 ∈ xs := by
        rw [List.getD_eq_getElem xs 0 hrlen]
        exact List.getElem_mem hrlen
      unfold pairsFrom dictGet
      rw [List.find?_cons_of_neg]
      · have h := ih (i + 1) r (List.nodup_cons.1 hnd).2 hrlen
        unfold dictGet at h
        simp only [List.getD_cons_succ]
        rw [h]
        congr 1
        omega
      · simp only [List.getD_cons_succ]
        simp only [beq_iff_eq]
        intro he
        exact hx (he ▸ hmem)

theorem dictGet_swapped :
    ∀ (ids : List ℕ) (i r : ℕ), r < ids.length →
      dictGet ((pairsFrom i ids).map (fun p => (p.2, p.1))) (i + r) =
        some (ids.getD r 0) := by
  intro ids
  induction ids with
  | nil => intro i r hr; simp at hr
  | cons x xs ih =>
    intro i r hr
    cases r with
    | zero =>
      unfold pairsFrom dictGet
      simp only [List.map_cons]
      rw [List.find?_cons_of_pos]
      · rfl
      · simp
    | succ r =>
      unfold pairsFrom dictGet
      simp only [List.map_cons]
      rw [List.find?_cons_of_neg]
      · have h := ih (i + 1) r (by simpa using hr)
        unfold dictGet at h
        have e : i + 1 + r = i + (r + 1) := by omega
        rw [e] at h
        simp only [List.getD_cons_succ]
        exact h
      · simp only [beq_iff_eq]
        omega

/-- C7, corrected claim: load_data fails on an empty catalog (with the
KeyError pandas raises on the missing movie_id column, not a dedicated
InvalidCatalog error), but a duplicated id is accepted silently, the
later row winning.  The bijection laws rowOf(idOf(row)) = row and
idOf(rowOf(id)) = id therefore hold only under the extra assumption
that the ids are pairwise distinct. -/
theorem load_data_spec :
    load_data [] = Except.error "KeyError: movie_id" ∧
      ∀ (ids : List ℕ), ids.Nodup → ∀ r, r < ids.length →
        dictGet (movie_id_to_index_dict ids) (ids.getD r 0) = some r ∧
        dictGet (index_to_movie_id_dict (movie_id_to_index_dict ids)) r =
          some (ids.getD r 0) := by
  refine ⟨rfl, ?_⟩
  intro ids hnd r hr
  constructor
  · rw [movie_id_to_index_dict_eq ids hnd]
    have h := dictGet_pairsFrom ids 0 r hnd hr
    simpa using h
  · rw [movie_id_to_index_dict_eq ids hnd, index_to_movie_id_dict_eq ids]
    have h := dictGet_swapped ids 0 r hr
    simpa using h

/-- Witness for the C7 theorem on the duplicate-free catalog [7, 9] at
row 1. -/
theorem load_data_spec_witness :
    dictGet (movie_id_to_index_dict [7, 9]) ([7, 9].getD 1 0) = some 1 ∧
      dictGet (index_to_movie_id_dict (movie_id_to_index_dict [7, 9])) 1 =
        some ([7, 9].getD 1 0) :=
  load_data_spec.2 [7, 9] (by decide) 1 (by decide)

theorem clampRating_bounds (x : ℚ) : 1 ≤ clampRating x ∧ clampRating x ≤ 5 :=
  ⟨le_max_left 1 _, max_le (by norm_num) (min_le_left 5 x)⟩

theorem get_collab_go (M : Model) (u : ℕ) :
    ∀ (idxs : List ℕ) (acc : List ℚ),
      idxs.foldl (fun scores movie_idx =>
        match M.item_id_to_idx ((M.movies.getD movie_idx defaultMovie).movie_id) with
        | some item_idx =>
          scores ++ [clampRating (dotProduct (M.user_factors.getD u [])
            (M.item_factors.getD item_idx []))]
        | none => scores ++ [5 / 2]) acc =
      acc ++ idxs.map (fun movie_idx =>
        match M.item_id_to_idx ((M.movies.getD movie_idx defaultMovie).movie_id) with
        | some item_idx =>
          clampRating (dotProduct (M.user_factors.getD u [])
            (M.item_factors.getD item_idx []))
        | none => 5 / 2) := by
  intro idxs
  induction idxs with
  | nil => intro acc; simp
  | cons i is ih =>
    intro acc
    simp only [List.foldl_cons, List.map_cons]
    cases hmi : M.item_id_to_idx ((M.movies.getD i defaultMovie).movie_id) with
    | none =>
      simp only [hmi]
      rw [ih]
      simp
    | some ii =>
      simp only [hmi]
      rw [ih]
      simp

/-- C8, confirmed: every collaborative score lies in [1, 5]; an unknown
user id yields the neutral default 5/2 for every requested index; for a
known user each index yields the clamped dot product of the user and
item factor vectors when the movie id is in the rating space, and the
neutral default 5/2 otherwise. -/
theorem get_collaborative_scores_spec :
    (∀ (M : Model) (uid : ℕ) (idxs : List ℕ) (x : ℚ),
        x ∈ get_collaborative_scores M uid idxs → 1 ≤ x ∧ x ≤ 5) ∧
      (∀ (M : Model) (uid : ℕ) (idxs : List ℕ), M.user_id_to_idx uid = none →
        get_collaborative_scores M uid idxs = idxs.map fun _ => 5 / 2) ∧
      (∀ (M : Model) (uid u : ℕ) (idxs : List ℕ),
        M.user_id_to_idx uid = some u →
        get_collaborative_scores M uid idxs = idxs.map (fun movie_idx =>
          match M.item_id_to_idx ((M.movies.getD movie_idx defaultMovie).movie_id) with
          | some item_idx =>
            clampRating (dotProduct (M.user_factors.getD u [])
              (M.item_factors.getD item_idx []))
          | none => 5 / 2)) := by
  have hnone : ∀ (M : Model) (uid : ℕ) (idxs : List ℕ),
      M.user_id_to_idx uid = none →
      get_collaborative_scores M uid idxs = idxs.map fun _ => (5 : ℚ) / 2 := by
    intro M uid idxs h
    unfold get_collaborative_scores
    rw [h]
  have hknown : ∀ (M : Model) (uid u : ℕ) (idxs : List ℕ),
      M.user_id_to_idx uid = some u →
      get_collaborative_scores M uid idxs = idxs.map (fun movie_idx =>
        match M.item_id_to_idx ((M.movies.getD movie_idx defaultMovie).movie_id) with
        | some item_idx =>
          clampRating (dotProduct (M.user_factors.getD u [])
            (M.item_factors.getD item_idx []))
        | none => 5 / 2) := by
    intro M uid u idxs h
    unfold get_collaborative_scores
    rw [h]
    exact (get_collab_go M u idxs []).trans (List.nil_append _)
  refine ⟨?_, hnone, hknown⟩
  intro M uid idxs x hx
  cases huser : M.user_id_to_idx uid with
  | none =>
    rw [hnone M uid idxs huser] at hx
    obtain ⟨_, _, rfl⟩ := List.mem_map.1 hx
    norm_num
  | some u =>
    rw [hknown M uid u idxs huser] at hx
    obtain ⟨mi, _, rfl⟩ := List.mem_map.1 hx
    cases hmi : M.item_id_to_idx ((M.movies.getD mi defaultMovie).movie_id) with
    | none => simp only [hmi]; norm_num
    | some ii => simp only [hmi]; exact clampRating_bounds _

/-- Witness for the C8 theorem: on cexModelCollab, user 1 and movie
index 0 produce the clamped dot product of the two factor vectors, which
the theorem places in [1, 5]. -/
theorem get_collaborative_scores_spec_witness :
    1 ≤ clampRating (dotProduct [2] [3]) ∧ clampRating (dotProduct [2] [3]) ≤ 5 :=
  get_collaborative_scores_spec.1 cexModelCollab 1 [0]
    (clampRating (dotProduct [2] [3])) (List.mem_cons_self _ _)

theorem length_normalizeContentScores (s : List ℚ) :
    (normalizeContentScores s).length = s.length := by
  unfold normalizeContentScores
  split
  · split <;> simp
  · rfl

theorem zipWith_alpha_one :
    ∀ (l1 l2 : List ℚ), l1.length = l2.length →
      List.zipWith (fun c k => 1 * c + (1 - 1) * k) l1 l2 = l1 := by
  intro l1
  induction l1 with
  | nil => intro l2 _; simp
  | cons a l ih =>
    intro l2 h
    cases l2 with
    | nil => simp at h
    | cons b m =>
      simp only [List.zipWith_cons_cons]
      rw [ih m (by simpa using h)]
      norm_num

theorem zipWith_alpha_zero :
    ∀ (l1 l2 : List ℚ), l1.length = l2.length →
      List.zipWith (fun c k => 0 * c + (1 - 0) * k) l1 l2 = l2 := by
  intro l1
  induction l1 with
  | nil =>
    intro l2 h
    cases l2 with
    | nil => simp
    | cons b m => simp at h
  | cons a l ih =>
    intro l2 h
    cases l2 with
    | nil => simp at h
    | cons b m =>
      simp only [List.zipWith_cons_cons]
      rw [ih m (by simpa using h)]
      norm_num

theorem orderedInsert_map_keyLe (g : ℚ × ℕ → ℚ × ℕ)
    (hg : ∀ a b, keyLe (g a) (g b) ↔ keyLe a b) :
    ∀ (l : List (ℚ × ℕ)) (a : ℚ × ℕ),
      (l.map g).orderedInsert keyLe (g a) = (l.orderedInsert keyLe a).map g := by
  intro l
  induction l with
  | nil => intro a; rfl
  | cons b m ih =>
    intro a
    simp only [List.map_cons, List.orderedInsert]
    by_cases h : keyLe a b
    · rw [if_pos ((hg a b).2 h), if_pos h]
      simp
    · rw [if_neg (fun hc => h ((hg a b).1 hc)), if_neg h]
      rw [List.map_cons, ih a]

theorem insertionSort_map_keyLe (g : ℚ × ℕ → ℚ × ℕ)
    (hg : ∀ a b, keyLe (g a) (g b) ↔ keyLe a b) :
    ∀ (l : List (ℚ × ℕ)),
      List.insertionSort keyLe (l.map g) = (List.insertionSort keyLe l).map g := by
  intro l
  induction l with
  | nil => rfl
  | cons a m ih =>
    simp only [List.map_cons, List.insertionSort]
    rw [ih, orderedInsert_map_keyLe g hg]

theorem argsortAsc_map (f : ℚ → ℚ) (hf : ∀ x y, f x < f y ↔ x < y)
    (s : List ℚ) : argsortAsc (s.map f) = argsortAsc s := by
  have hfe : ∀ x y, f x = f y ↔ x = y := by
    intro x y
    constructor
    · intro h
      rcases lt_trichotomy x y with hc | hc | hc
      · exact absurd ((hf x y).2 hc) (by rw [h]; exact lt_irrefl _)
      · exact hc
      · exact absurd ((hf y x).2 hc) (by rw [h]; exact lt_irrefl _)
    · intro h; rw [h]
  have hg : ∀ a b : ℚ × ℕ, keyLe ((fun p : ℚ × ℕ => (f p.1, p.2)) a)
      ((fun p : ℚ × ℕ => (f p.1, p.2)) b) ↔ keyLe a b := by
    intro a b
    simp only [keyLe]
    rw [hf a.1 b.1, hfe a.1 b.1]
  unfold argsortAsc
  rw [pairsFrom_map f 0 s, insertionSort_map_keyLe _ hg, List.map_map]
  rfl

theorem argsort_normalizeContent (s : List ℚ) :
    argsortAsc (normalizeContentScores s) = argsortAsc s := by
  unfold normalizeContentScores
  split
  · rename_i M m heq1 heq2
    split
    · rename_i hlt
      apply argsortAsc_map
      intro x y
      have hpos : (0 : ℚ) < M - m := sub_pos.2 hlt
      rw [div_lt_div_iff_of_pos_right hpos, sub_lt_sub_iff_right]
    · rfl
  · rfl

/-- C9, confirmed: with alpha = 1 the hybrid ranking coincides with the
ranking by raw content scores (min-max normalization is strictly
monotone or skipped), and with alpha = 0 it coincides with the ranking
by raw collaborative predictions (the [1,5] to [0,1] rescale is strictly
monotone), for candidate lists of matching length. -/
theorem hybrid_alpha_extremes (content collab : List ℚ)
    (h : content.length = collab.length) (top_n : ℕ) :
    topIndices (hybridScoresOf 1 content collab) top_n =
        topIndices content top_n ∧
      topIndices (hybridScoresOf 0 content collab) top_n =
        topIndices collab top_n := by
  have hlen1 : (normalizeContentScores content).length =
      (normalizeCollabScores collab).length := by
    rw [length_normalizeContentScores]
    unfold normalizeCollabScores
    rw [List.length_map]
    exact h
  constructor
  · unfold hybridScoresOf
    rw [zipWith_alpha_one _ _ hlen1]
    unfold topIndices argsortDesc
    rw [argsort_normalizeContent]
  · unfold hybridScoresOf
    rw [zipWith_alpha_zero _ _ hlen1]
    unfold topIndices argsortDesc normalizeCollabScores
    have hmap := argsortAsc_map (fun x => (x - 1) / 4)
      (by
        intro x y
        rw [div_lt_div_iff_of_pos_right (show (0 : ℚ) < 4 by norm_num),
          sub_lt_sub_iff_right])
      collab
    rw [hmap]

/-- Witness for the C9 theorem on the concrete candidate score lists
[1, 2] (content) and [3, 4] (collaborative). -/
theorem hybrid_alpha_extremes_witness :
    topIndices (hybridScoresOf 1 [1, 2] [3, 4]) 5 = topIndices [1, 2] 5 ∧
      topIndices (hybridScoresOf 0 [1, 2] [3, 4]) 5 = topIndices [3, 4] 5 :=
  hybrid_alpha_extremes [1, 2] [3, 4] rfl 5

theorem length_get_collaborative_scores (M : Model) (uid : ℕ)
    (idxs : List ℕ) : (get_collaborative_scores M uid idxs).length = idxs.length := by
  cases huser : M.user_id_to_idx uid with
  | none =>
    unfold get_collaborative_scores
    rw [huser]
    simp
  | some u =>
    unfold get_collaborative_scores
    rw [huser]
    have h := (get_collab_go M u idxs []).trans (List.nil_append _)
    exact (congrArg List.length h).trans (List.length_map _ _)

theorem length_argsortDesc (s : List ℚ) : (argsortDesc s).length = s.length := by
  unfold argsortDesc
  rw [List.length_reverse, length_argsortAsc]

theorem length_hybridScoresFor (M : Model) (uid : ℕ) (cs : List (ℕ × ℚ))
    (alpha : ℚ) : (hybridScoresFor M uid cs alpha).length = cs.length := by
  unfold hybridScoresFor hybridScoresOf normalizeCollabScores
  simp [List.length_zipWith, length_normalizeContentScores,
    length_get_collaborative_scores]

theorem length_resultRows (M : Model) (uid : ℕ) (cs : List (ℕ × ℚ))
    (alpha : ℚ) (top_n : ℕ) :
    (resultRows M uid cs alpha top_n).length = min top_n cs.length := by
  unfold resultRows topIndices
  rw [List.length_map, List.length_take, length_argsortDesc,
    length_hybridScoresFor]

/-- C10, confirmed: when the reference title has no catalog match,
hybrid_recommend returns the empty frame whose columns are exactly
movie_id, title, genre, overview, rating, score; when there is a match
(and at least one result is requested) the returned frame carries the
two extra columns content_score and collab_score — the schema differs
between the two cases of the same operation. -/
theorem hybrid_recommend_schema (M : Model) (uid : ℕ) (t : String) (a : ℚ)
    (n : ℕ) :
    (get_content_similarity M t 100 = [] →
      hybrid_recommend M uid t a n = ⟨emptyResultColumns, []⟩) ∧
      (get_content_similarity M t 100 ≠ [] → 1 ≤ n →
        (hybrid_recommend M uid t a n).columns = fullResultColumns) ∧
      "content_score" ∉ emptyResultColumns ∧
      "collab_score" ∉ emptyResultColumns ∧
      "content_score" ∈ fullResultColumns ∧
      "collab_score" ∈ fullResultColumns := by
  refine ⟨?_, ?_, by decide, by decide, by decide, by decide⟩
  · intro h
    simp only [hybrid_recommend]
    rw [h]
    simp
  · intro h hn
    have hne : ¬ ((get_content_similarity M t 100).isEmpty = true) := by
      rw [List.isEmpty_iff]
      exact h
    have hres : ¬ ((resultRows M uid (get_content_similarity M t 100) a n).isEmpty
        = true) := by
      rw [List.isEmpty_iff]
      intro hempty
      have hlen := congrArg List.length hempty
      rw [length_resultRows] at hlen
      simp only [List.length_nil] at hlen
      rcases Nat.min_eq_zero_iff.1 hlen with hz | hz
      · omega
      · exact h (List.length_eq_zero.1 hz)
    simp only [hybrid_recommend]
    rw [if_neg hne, if_neg hres]

/-- Witness for the C10 theorem on cexModelAlpha: the title zzzz has no
match and yields the six-column empty frame; the title aa matches row 0
and yields a frame with the eight-column schema. -/
theorem hybrid_recommend_schema_witness :
    hybrid_recommend cexModelAlpha 1 "zzzz" 1 5 = ⟨emptyResultColumns, []⟩ ∧
      (hybrid_recommend cexModelAlpha 1 "aa" 1 5).columns = fullResultColumns :=
  ⟨(hybrid_recommend_schema cexModelAlpha 1 "zzzz" 1 5).1 (by decide),
   (hybrid_recommend_schema cexModelAlpha 1 "aa" 1 5).2.1 (by decide) (by decide)⟩

/-- C4, code bug: the engine-level hybrid_recommend performs no alpha
validation at all.  At the out-of-range alpha = 2 it raises nothing and
happily computes: on cexModelAlpha it returns a one-row result frame
(for movie id 20), with alpha = 2 used in the blending — while the
repository's own test test_invalid_alpha_values expects a ValueError. -/
theorem hybrid_recommend_invalid_alpha :
    (hybrid_recommend cexModelAlpha 99 "aa" 2 10).columns = fullResultColumns ∧
      (hybrid_recommend cexModelAlpha 99 "aa" 2 10).rows.length = 1 ∧
      (hybrid_recommend cexModelAlpha 99 "aa" 2 10).rows.map
        (fun row => row.getD 0 (Val.nat 0)) = [Val.nat 20] := by
  refine ⟨by decide, by decide, by decide⟩

end Recommender
